import Mathlib

/-!
Verification of the `rwarden_crypto` crate: the cipher-string wire format,
the AES-CBC (+ HMAC) symmetric suite, the RSA value types and the key
derivation layer.  Rust functions are shallowly embedded: bytes are `Nat`
(with explicit `< 256` bounds where they matter), `[u8; n]` parameters
become `List Nat` plus length hypotheses, fallible code returns an
explicit result type, and a Rust panic (failed slice index, failed
`GenericArray::from_slice` length assertion) is a distinguished outcome.
External crates (`aes`, `hmac`, `hkdf`, `pbkdf2`, `rsa`) are abstract
function parameters collected in `Prims`; the crate's own logic —
parsing, formatting, CBC chaining with PKCS#7 padding as instantiated by
`block_modes`, base64 as instantiated by the `base64` crate, MAC
verification order, key unwrapping — is modelled concretely.
-/

namespace Rwarden

/-- Outcome of running a Rust function: a panic, a returned error, or a
returned value. -/
inductive PResult (ε α : Type) where
  | panicked : PResult ε α
  | err : ε → PResult ε α
  | ok : α → PResult ε α
  deriving DecidableEq, Repr

namespace PResult

/-- Model of Rust's `?` operator on a `Result`, lifted into `PResult`. -/
def bind {ε α β : Type} (x : PResult ε α) (f : α → PResult ε β) : PResult ε β :=
  match x with
  | .panicked => .panicked
  | .err e => .err e
  | .ok a => f a

/-- `true` exactly on values built with `PResult.ok`. -/
def isOk {ε α : Type} : PResult ε α → Bool
  | .ok _ => true
  | _ => false

end PResult

/-- Lift an infallible-of-panics `Except` computation into `PResult`,
converting the error along the way (model of `map_err` + `?`). -/
def exceptToPResult {ε ε' α : Type} (f : ε → ε') : Except ε α → PResult ε' α
  | .ok a => .ok a
  | .error e => .err (f e)

/-- All entries of the list are valid byte values. -/
def AllBytes (l : List Nat) : Prop := ∀ x ∈ l, x < 256

instance (l : List Nat) : Decidable (AllBytes l) := by
  unfold AllBytes; infer_instance

/-! ## The `base64` crate (standard alphabet, with padding)

Modelled from the behaviour of `base64::encode` / `base64::decode`
(version 0.13, `STANDARD` config) as used by the crate. -/

/-- Decode error of `base64::decode`. -/
inductive DecodeError where
  | invalidByte : DecodeError
  | invalidLength : DecodeError
  | invalidLastSymbol : DecodeError
  deriving DecidableEq, Repr

/-- The standard base64 alphabet, index to character. -/
def b64Chr (n : Nat) : Char :=
  if n < 26 then Char.ofNat (65 + n)
  else if n < 52 then Char.ofNat (97 + (n - 26))
  else if n < 62 then Char.ofNat (48 + (n - 52))
  else if n = 62 then '+'
  else '/'

/-- The standard base64 alphabet, character to index. -/
def b64Val (c : Char) : Option Nat :=
  if 'A' ≤ c ∧ c ≤ 'Z' then some (c.toNat - 65)
  else if 'a' ≤ c ∧ c ≤ 'z' then some (c.toNat - 97 + 26)
  else if '0' ≤ c ∧ c ≤ '9' then some (c.toNat - 48 + 52)
  else if c = '+' then some 62
  else if c = '/' then some 63
  else none

/-- `base64::encode`: three input bytes become four alphabet characters;
a final group of one or two bytes is padded with `=`. -/
def b64Encode : List Nat → List Char
  | [] => []
  | [a] => [b64Chr (a / 4), b64Chr (a % 4 * 16), '=', '=']
  | [a, b] => [b64Chr (a / 4), b64Chr (a % 4 * 16 + b / 16), b64Chr (b % 16 * 4), '=']
  | a :: b :: c :: rest =>
      b64Chr (a / 4) :: b64Chr (a % 4 * 16 + b / 16) ::
        b64Chr (b % 16 * 4 + c / 64) :: b64Chr (c % 64) :: b64Encode rest

/-- `base64::decode`: four-character groups, the final group possibly
padded (or short, for unpadded input); rejects characters outside the
alphabet, an input of length `1 mod 4`, and non-zero trailing bits. -/
def b64Decode : List Char → Except DecodeError (List Nat)
  | [] => .ok []
  | [_] => .error .invalidLength
  | [c1, c2] =>
      match b64Val c1, b64Val c2 with
      | some v1, some v2 =>
          if v2 % 16 = 0 then .ok [v1 * 4 + v2 / 16] else .error .invalidLastSymbol
      | _, _ => .error .invalidByte
  | [c1, c2, c3] =>
      match b64Val c1, b64Val c2, b64Val c3 with
      | some v1, some v2, some v3 =>
          if v3 % 4 = 0 then .ok [v1 * 4 + v2 / 16, v2 % 16 * 16 + v3 / 4]
          else .error .invalidLastSymbol
      | _, _, _ => .error .invalidByte
  | c1 :: c2 :: c3 :: c4 :: rest =>
      match b64Val c1, b64Val c2 with
      | some v1, some v2 =>
          if c3 = '=' then
            if c4 = '=' ∧ rest = [] then
              if v2 % 16 = 0 then .ok [v1 * 4 + v2 / 16] else .error .invalidLastSymbol
            else .error .invalidByte
          else
            match b64Val c3 with
            | some v3 =>
                if c4 = '=' then
                  if rest = [] then
                    if v3 % 4 = 0 then .ok [v1 * 4 + v2 / 16, v2 % 16 * 16 + v3 / 4]
                    else .error .invalidLastSymbol
                  else .error .invalidByte
                else
                  match b64Val c4 with
                  | some v4 =>
                      (b64Decode rest).map
                        (fun bs => (v1 * 4 + v2 / 16) :: (v2 % 16 * 16 + v3 / 4) ::
                          (v3 % 4 * 64 + v4) :: bs)
                  | none => .error .invalidByte
            | none => .error .invalidByte
      | _, _ => .error .invalidByte

/-! ## Rust string model

A `&str` is a UTF-8 byte string; we carry it as its `List Char` and
recover byte positions through each character's encoded length.  The
crate's parsers compute `ty_end` as a **char** position
(`chars.position(|v| v == '.')`) and then use it as a **byte** index in
`value[0..ty_end]`; slicing at a non-boundary byte index panics. -/

/-- `char::len_utf8`. -/
def utf8Len (c : Char) : Nat :=
  if c.toNat < 128 then 1
  else if c.toNat < 2048 then 2
  else if c.toNat < 65536 then 3
  else 4

/-- The byte slice `value[0..n]` of a UTF-8 string: `none` models the
panic when `n` is out of range or not a character boundary. -/
def takeBytes : List Char → Nat → Option (List Char)
  | _, 0 => some []
  | [], _ + 1 => none
  | c :: cs, n + 1 =>
      if utf8Len c ≤ n + 1 then (takeBytes cs (n + 1 - utf8Len c)).map (c :: ·)
      else none

/-- Error kinds of `str::parse::<usize>` reachable here. -/
inductive ParseIntError where
  | empty : ParseIntError
  | invalidDigit : ParseIntError
  | posOverflow : ParseIntError
  deriving DecidableEq, Repr

/-- ASCII digit test on the scalar value. -/
def isDigitC (c : Char) : Bool := 48 ≤ c.toNat && c.toNat ≤ 57

/-- Numeric value of an ASCII digit. -/
def digitVal (c : Char) : Nat := c.toNat - 48

/-- `str::parse::<usize>`: an optional leading `+`, then one or more
ASCII digits; 64-bit overflow is an error. -/
def parseUsize (s : List Char) : Except ParseIntError Nat :=
  match s with
  | [] => .error .empty
  | _ =>
      let ds := match s with
        | '+' :: rest => rest
        | _ => s
      match ds with
      | [] => .error .empty
      | _ =>
          if ds.all isDigitC then
            let n := ds.foldl (fun acc c => acc * 10 + digitVal c) 0
            if n < 2 ^ 64 then .ok n else .error .posOverflow
          else .error .invalidDigit

/-- `str::split('|')` collected into a list; always non-empty. -/
def splitPipe : List Char → List (List Char)
  | [] => [[]]
  | c :: rest =>
      if c = '|' then [] :: splitPipe rest
      else
        match splitPipe rest with
        | [] => [[c]]
        | p :: ps => (c :: p) :: ps

/-- Char position of the first `.`, with the
`unwrap_or_else(|| value.chars().count())` fallback. -/
def tyEndIdx (s : List Char) : Nat := (s.findIdx? (· == '.')).getD s.length

/-- What `chars.as_str()` holds after `position` consumed through the
first `.` (everything, leaving the empty string, when there is none). -/
def restAfterDot (s : List Char) : List Char :=
  match s.findIdx? (· == '.') with
  | some i => s.drop (i + 1)
  | none => []

/-- Shared head of every `parse` in the crate: locate the dot by char
position, byte-slice the prefix with that char position (the possible
panic), and parse it as `usize`. -/
def parseTypeTag (s : List Char) : PResult ParseIntError (Nat × List Char) :=
  match takeBytes s (tyEndIdx s) with
  | none => .panicked
  | some ds =>
      match parseUsize ds with
      | .error e => .err e
      | .ok ty => .ok (ty, restAfterDot s)

/-! ## The `block_modes` crate: CBC mode with PKCS#7 padding

Modelled from `Cbc::<_, Pkcs7>::encrypt_vec` / `decrypt_vec`
(`block-modes` 0.8) over an abstract 16-byte block cipher. -/

/-- `block_modes::BlockModeError`. -/
inductive BlockModeError where
  | mk : BlockModeError
  deriving DecidableEq, Repr

/-- Byte-wise xor of two equal-length byte strings. -/
def listXor (a b : List Nat) : List Nat := List.zipWith (fun x y => x ^^^ y) a b

/-- CBC encryption of `n` 16-byte blocks: each block is xored with the
previous ciphertext block (initially the IV) and sent through the block
cipher. -/
def cbcEncBlocks (E : List Nat → List Nat) : Nat → List Nat → List Nat → List Nat
  | 0, _, _ => []
  | n + 1, iv, pt =>
      let c := E (listXor iv (pt.take 16))
      c ++ cbcEncBlocks E n c (pt.drop 16)

/-- CBC decryption of `n` 16-byte blocks. -/
def cbcDecBlocks (D : List Nat → List Nat) : Nat → List Nat → List Nat → List Nat
  | 0, _, _ => []
  | n + 1, iv, ct =>
      listXor iv (D (ct.take 16)) ++ cbcDecBlocks D n (ct.take 16) (ct.drop 16)

/-- PKCS#7: number of padding bytes for a message of length `n`. -/
def pkcs7PadLen (n : Nat) : Nat := 16 - n % 16

/-- PKCS#7 padding to a positive multiple of the block size. -/
def pkcs7Pad (pt : List Nat) : List Nat :=
  pt ++ List.replicate (pkcs7PadLen pt.length) (pkcs7PadLen pt.length)

/-- PKCS#7 unpadding: the last byte names the pad length, which must be
in `1..=16` and cover a suffix of equal bytes. -/
def pkcs7Unpad (b : List Nat) : Except BlockModeError (List Nat) :=
  match b.getLast? with
  | none => .error .mk
  | some n =>
      if 1 ≤ n ∧ n ≤ 16 ∧ n ≤ b.length ∧ (b.drop (b.length - n)).all (· == n) then
        .ok (b.take (b.length - n))
      else .error .mk

/-- `encrypt_vec`: pad, then CBC-encrypt all blocks. -/
def encryptVec (E : List Nat → List Nat) (iv pt : List Nat) : List Nat :=
  let padded := pkcs7Pad pt
  cbcEncBlocks E (padded.length / 16) iv padded

/-- `decrypt_vec`: reject a length that is not a multiple of the block
size, CBC-decrypt all blocks, then unpad. -/
def decryptVec (D : List Nat → List Nat) (iv ct : List Nat) :
    Except BlockModeError (List Nat) :=
  if ct.length % 16 = 0 then pkcs7Unpad (cbcDecBlocks D (ct.length / 16) iv ct)
  else .error .mk

/-! ## External cryptographic primitives

The `aes`, `hmac`, `hkdf` and `pbkdf2` crates are abstract total
functions; the crate under verification only composes them. -/

/-- Primitives supplied by external crates. -/
structure Prims where
  /-- `Hmac::<Sha256>` keyed with an arbitrary-length key over a message. -/
  hmacSha256 : List Nat → List Nat → List Nat
  /-- AES-256 block encryption: 32-byte key, 16-byte block. -/
  aes256Enc : List Nat → List Nat → List Nat
  /-- AES-256 block decryption. -/
  aes256Dec : List Nat → List Nat → List Nat
  /-- AES-128 block encryption: 16-byte key, 16-byte block. -/
  aes128Enc : List Nat → List Nat → List Nat
  /-- AES-128 block decryption. -/
  aes128Dec : List Nat → List Nat → List Nat
  /-- `Hkdf::<Sha256>::from_prk(..).expand(info, out)`. -/
  hkdfSha256Expand : List Nat → List Nat → Nat → List Nat
  /-- `pbkdf2::<Hmac<Sha256>>(password, salt, rounds, out)`. -/
  pbkdf2HmacSha256 : List Nat → List Nat → Nat → Nat → List Nat

/-- `GenericArray::from_slice`: asserts the slice has exactly the
expected length and panics otherwise. -/
def fromSlice {ε : Type} (n : Nat) (l : List Nat) : PResult ε (List Nat) :=
  if l.length = n then .ok l else .panicked

namespace PResult

/-- Map the success value. -/
def map {ε α β : Type} (f : α → β) : PResult ε α → PResult ε β
  | .panicked => .panicked
  | .err e => .err e
  | .ok a => .ok (f a)

/-- Map the error value (Rust `map_err`). -/
def mapErr {ε ε' α : Type} (f : ε → ε') : PResult ε α → PResult ε' α
  | .panicked => .panicked
  | .err e => .err (f e)
  | .ok a => .ok a

end PResult

/-! ## `symmetric_encryption/aes.rs` -/

/-- Parse error for `AesCbc256`. -/
inductive AesCbc256ParseError where
  | parseEncryptionType (e : ParseIntError)
  | invalidEncryptionType (expected found : Nat)
  | ivNotFound
  | invalidIvLength
  | ciphertextNotFound
  | decode (e : DecodeError)
  deriving DecidableEq, Repr

/-- Shared parse error of the two HMAC variants. -/
inductive AesCbcHmacSha256ParseError where
  | parseEncryptionType (e : ParseIntError)
  | invalidEncryptionType (expected found : Nat)
  | ivNotFound
  | invalidIvLength
  | macNotFound
  | invalidMacLength
  | ciphertextNotFound
  | decode (e : DecodeError)
  deriving DecidableEq, Repr

/-- Shared decryption error of the two HMAC variants. -/
inductive AesCbcHmacSha256DecryptionError where
  | macVerification
  | blockMode (e : BlockModeError)
  deriving DecidableEq, Repr

/-- The type-0 value: unauthenticated AES-CBC-256. -/
structure AesCbc256 where
  iv : List Nat
  ciphertext : List Nat
  deriving DecidableEq, Repr

/-- The type-1 value. -/
structure AesCbc128HmacSha256 where
  iv : List Nat
  mac : List Nat
  ciphertext : List Nat
  deriving DecidableEq, Repr

/-- The type-2 value. -/
structure AesCbc256HmacSha256 where
  iv : List Nat
  mac : List Nat
  ciphertext : List Nat
  deriving DecidableEq, Repr

/-- `Parse for AesCbc256`: tag `0`, then `iv|ciphertext`, with the IV
length checked only at struct construction. -/
def AesCbc256.parse (s : List Char) : PResult AesCbc256ParseError AesCbc256 :=
  match parseTypeTag s with
  | .panicked => .panicked
  | .err e => .err (.parseEncryptionType e)
  | .ok (ty, rest) =>
      if ty ≠ 0 then .err (.invalidEncryptionType 0 ty)
      else
        let parts := splitPipe rest
        match parts.get? 0 with
        | none => .err .ivNotFound
        | some ivSeg =>
            match b64Decode ivSeg with
            | .error e => .err (.decode e)
            | .ok iv =>
                match parts.get? 1 with
                | none => .err .ciphertextNotFound
                | some ctSeg =>
                    match b64Decode ctSeg with
                    | .error e => .err (.decode e)
                    | .ok ct =>
                        if iv.length = 16 then .ok ⟨iv, ct⟩
                        else .err .invalidIvLength

/-- The parse shared by `AesCbc128HmacSha256` and `AesCbc256HmacSha256`
(the two source impls differ only in the expected tag): segments in the
order `iv|ciphertext|mac`, lengths checked at struct construction, IV
first. -/
def parseTagIvCtMac (expected : Nat) (s : List Char) :
    PResult AesCbcHmacSha256ParseError (List Nat × List Nat × List Nat) :=
  match parseTypeTag s with
  | .panicked => .panicked
  | .err e => .err (.parseEncryptionType e)
  | .ok (ty, rest) =>
      if ty ≠ expected then .err (.invalidEncryptionType expected ty)
      else
        let parts := splitPipe rest
        match parts.get? 0 with
        | none => .err .ivNotFound
        | some ivSeg =>
            match b64Decode ivSeg with
            | .error e => .err (.decode e)
            | .ok iv =>
                match parts.get? 1 with
                | none => .err .ciphertextNotFound
                | some ctSeg =>
                    match b64Decode ctSeg with
                    | .error e => .err (.decode e)
                    | .ok ct =>
                        match parts.get? 2 with
                        | none => .err .macNotFound
                        | some macSeg =>
                            match b64Decode macSeg with
                            | .error e => .err (.decode e)
                            | .ok mac =>
                                if iv.length = 16 then
                                  if mac.length = 32 then .ok (iv, mac, ct)
                                  else .err .invalidMacLength
                                else .err .invalidIvLength

/-- `Parse for AesCbc128HmacSha256`: expected tag `1`. -/
def AesCbc128HmacSha256.parse (s : List Char) :
    PResult AesCbcHmacSha256ParseError AesCbc128HmacSha256 :=
  (parseTagIvCtMac 1 s).map fun (iv, mac, ct) => ⟨iv, mac, ct⟩

/-- `Parse for AesCbc256HmacSha256`: expected tag `2`. -/
def AesCbc256HmacSha256.parse (s : List Char) :
    PResult AesCbcHmacSha256ParseError AesCbc256HmacSha256 :=
  (parseTagIvCtMac 2 s).map fun (iv, mac, ct) => ⟨iv, mac, ct⟩

/-- `Encrypt for AesCbc256` with the freshly generated IV made explicit:
CBC-encrypt under AES-256; no MAC. -/
def AesCbc256.encrypt (P : Prims) (iv pt enc : List Nat) : PResult Unit AesCbc256 :=
  (fromSlice 32 enc).bind fun encKey =>
    (fromSlice 16 iv).bind fun iv' =>
      .ok ⟨iv', encryptVec (P.aes256Enc encKey) iv' pt⟩

/-- `Decrypt for AesCbc256`.  The source constructs
`Cbc::<Aes128, Pkcs7>` here, so `GenericArray::from_slice` asserts a
**16**-byte key against the 32-byte `enc` parameter. -/
def AesCbc256.decrypt (P : Prims) (v : AesCbc256) (enc : List Nat) :
    PResult BlockModeError (List Nat) :=
  (fromSlice 16 enc).bind fun encKey =>
    (fromSlice 16 v.iv).bind fun iv =>
      exceptToPResult id (decryptVec (P.aes128Dec encKey) iv v.ciphertext)

/-- `Encrypt for AesCbc256HmacSha256` with the IV explicit: CBC-encrypt
under AES-256, then HMAC-SHA256 over `iv || ciphertext`. -/
def AesCbc256HmacSha256.encrypt (P : Prims) (iv pt enc mac : List Nat) :
    PResult Unit AesCbc256HmacSha256 :=
  (fromSlice 32 enc).bind fun encKey =>
    (fromSlice 16 iv).bind fun iv' =>
      let ct := encryptVec (P.aes256Enc encKey) iv' pt
      .ok ⟨iv', P.hmacSha256 mac (iv' ++ ct), ct⟩

/-- `Decrypt for AesCbc256HmacSha256`: recompute HMAC-SHA256 over
`iv || ciphertext`, verify against the stored MAC, and only then build
the CBC instance and decrypt. -/
def AesCbc256HmacSha256.decrypt (P : Prims) (v : AesCbc256HmacSha256)
    (enc mac : List Nat) : PResult AesCbcHmacSha256DecryptionError (List Nat) :=
  if P.hmacSha256 mac (v.iv ++ v.ciphertext) = v.mac then
    (fromSlice 32 enc).bind fun encKey =>
      (fromSlice 16 v.iv).bind fun iv =>
        exceptToPResult .blockMode (decryptVec (P.aes256Dec encKey) iv v.ciphertext)
  else .err .macVerification

/-- `Decrypt for AesCbc128HmacSha256`: same shape with 16-byte keys and
AES-128. -/
def AesCbc128HmacSha256.decrypt (P : Prims) (v : AesCbc128HmacSha256)
    (enc mac : List Nat) : PResult AesCbcHmacSha256DecryptionError (List Nat) :=
  if P.hmacSha256 mac (v.iv ++ v.ciphertext) = v.mac then
    (fromSlice 16 enc).bind fun encKey =>
      (fromSlice 16 v.iv).bind fun iv =>
        exceptToPResult .blockMode (decryptVec (P.aes128Dec encKey) iv v.ciphertext)
  else .err .macVerification

/-- `Display for AesCbc256`: `0.<iv>|<ciphertext>`. -/
def AesCbc256.display (v : AesCbc256) : List Char :=
  '0' :: '.' :: (b64Encode v.iv ++ '|' :: b64Encode v.ciphertext)

/-- `Display for AesCbc128HmacSha256`: `1.<iv>|<ciphertext>|<mac>`. -/
def AesCbc128HmacSha256.display (v : AesCbc128HmacSha256) : List Char :=
  '1' :: '.' :: (b64Encode v.iv ++ '|' :: (b64Encode v.ciphertext ++ '|' :: b64Encode v.mac))

/-- `Display for AesCbc256HmacSha256`: `2.<iv>|<ciphertext>|<mac>`. -/
def AesCbc256HmacSha256.display (v : AesCbc256HmacSha256) : List Char :=
  '2' :: '.' :: (b64Encode v.iv ++ '|' :: (b64Encode v.ciphertext ++ '|' :: b64Encode v.mac))

/-! ## `symmetric_encryption.rs` -/

/-- `symmetric_encryption::ParseError`. -/
inductive SymmetricParseError where
  | parseEncryptionType (e : ParseIntError)
  | invalidEncryptionType (expected : List Nat) (found : Nat)
  | aesCbc256 (e : AesCbc256ParseError)
  | aesCbc128HmacSha256 (e : AesCbcHmacSha256ParseError)
  | aesCbc256HmacSha256 (e : AesCbcHmacSha256ParseError)
  deriving DecidableEq, Repr

/-- `symmetric_encryption::DecryptionError`. -/
inductive SymmetricDecryptionError where
  | aesCbc256 (e : BlockModeError)
  | aesCbc256HmacSha256 (e : AesCbcHmacSha256DecryptionError)
  | unsupportedEncryptionType
  | macKeyMissing
  deriving DecidableEq, Repr

/-- The tagged union of the three symmetric variants. -/
inductive SymmetricEncryption where
  | aesCbc256 (v : AesCbc256)
  | aesCbc128HmacSha256 (v : AesCbc128HmacSha256)
  | aesCbc256HmacSha256 (v : AesCbc256HmacSha256)
  deriving DecidableEq, Repr

/-- `SymmetricKey { enc, mac }` with `mac` optional. -/
structure SymmetricKey where
  enc : List Nat
  mac : Option (List Nat)
  deriving DecidableEq, Repr

/-- `Parse for SymmetricEncryption`: read the tag (same char-position
prefix logic), then delegate to the variant's own parse of the whole
string; tags other than `0`, `1`, `2` report the accepted set. -/
def SymmetricEncryption.parse (s : List Char) :
    PResult SymmetricParseError SymmetricEncryption :=
  match parseTypeTag s with
  | .panicked => .panicked
  | .err e => .err (.parseEncryptionType e)
  | .ok (ty, _) =>
      match ty with
      | 0 => ((AesCbc256.parse s).mapErr .aesCbc256).map .aesCbc256
      | 1 => ((AesCbc128HmacSha256.parse s).mapErr .aesCbc128HmacSha256).map
               .aesCbc128HmacSha256
      | 2 => ((AesCbc256HmacSha256.parse s).mapErr .aesCbc256HmacSha256).map
               .aesCbc256HmacSha256
      | ty => .err (.invalidEncryptionType [0, 1, 2] ty)

/-- `Encrypt for SymmetricEncryption`: authenticated variant when the
key has a MAC half, legacy variant otherwise. -/
def SymmetricEncryption.encrypt (P : Prims) (iv pt : List Nat) (k : SymmetricKey) :
    PResult Unit SymmetricEncryption :=
  match k.mac with
  | some mac => (AesCbc256HmacSha256.encrypt P iv pt k.enc mac).map .aesCbc256HmacSha256
  | none => (AesCbc256.encrypt P iv pt k.enc).map .aesCbc256

/-- `Decrypt for SymmetricEncryption`: dispatch on the variant;
`AesCbc128HmacSha256` is rejected, and the authenticated variant
requires the key's MAC half. -/
def SymmetricEncryption.decrypt (P : Prims) (v : SymmetricEncryption)
    (k : SymmetricKey) : PResult SymmetricDecryptionError (List Nat) :=
  match v with
  | .aesCbc256 w => (AesCbc256.decrypt P w k.enc).mapErr .aesCbc256
  | .aesCbc128HmacSha256 _ => .err .unsupportedEncryptionType
  | .aesCbc256HmacSha256 w =>
      match k.mac with
      | some mac =>
          (AesCbc256HmacSha256.decrypt P w k.enc mac).mapErr .aesCbc256HmacSha256
      | none => .err .macKeyMissing

/-- `Display for SymmetricEncryption`: delegate to the variant. -/
def SymmetricEncryption.display : SymmetricEncryption → List Char
  | .aesCbc256 v => v.display
  | .aesCbc128HmacSha256 v => v.display
  | .aesCbc256HmacSha256 v => v.display

/-! ## `asymmetric_encryption.rs` / `asymmetric_encryption/rsa.rs` -/

/-- Parse error shared by the two RSA value types. -/
inductive Rsa2048OaepParseError where
  | parseEncryptionType (e : ParseIntError)
  | invalidEncryptionType (expected found : Nat)
  | ciphertextNotFound
  | decode (e : DecodeError)
  deriving DecidableEq, Repr

/-- The type-4 value. -/
structure Rsa2048OaepSha1 where
  ciphertext : List Nat
  deriving DecidableEq, Repr

/-- The type-3 value. -/
structure Rsa2048OaepSha256 where
  ciphertext : List Nat
  deriving DecidableEq, Repr

/-- The parse shared by the two RSA impls (they differ only in the
expected tag): a single base64 ciphertext segment. -/
def parseTagCt (expected : Nat) (s : List Char) :
    PResult Rsa2048OaepParseError (List Nat) :=
  match parseTypeTag s with
  | .panicked => .panicked
  | .err e => .err (.parseEncryptionType e)
  | .ok (ty, rest) =>
      if ty ≠ expected then .err (.invalidEncryptionType expected ty)
      else
        match (splitPipe rest).get? 0 with
        | none => .err .ciphertextNotFound
        | some ctSeg =>
            match b64Decode ctSeg with
            | .error e => .err (.decode e)
            | .ok ct => .ok ct

/-- `Parse for Rsa2048OaepSha1`: expected tag `4`. -/
def Rsa2048OaepSha1.parse (s : List Char) :
    PResult Rsa2048OaepParseError Rsa2048OaepSha1 :=
  (parseTagCt 4 s).map fun ct => ⟨ct⟩

/-- `Parse for Rsa2048OaepSha256`: expected tag `3`. -/
def Rsa2048OaepSha256.parse (s : List Char) :
    PResult Rsa2048OaepParseError Rsa2048OaepSha256 :=
  (parseTagCt 3 s).map fun ct => ⟨ct⟩

/-- `Display for Rsa2048OaepSha1`: `4.<ciphertext>`. -/
def Rsa2048OaepSha1.display (v : Rsa2048OaepSha1) : List Char :=
  '4' :: '.' :: b64Encode v.ciphertext

/-- `Display for Rsa2048OaepSha256`: `3.<ciphertext>`. -/
def Rsa2048OaepSha256.display (v : Rsa2048OaepSha256) : List Char :=
  '3' :: '.' :: b64Encode v.ciphertext

/-- `asymmetric_encryption::ParseError`. -/
inductive AsymmetricParseError where
  | parseEncryptionType (e : ParseIntError)
  | invalidEncryptionType (expected : List Nat) (found : Nat)
  | rsa2048OaepSha1 (e : Rsa2048OaepParseError)
  | rsa2048OaepSha256 (e : Rsa2048OaepParseError)
  deriving DecidableEq, Repr

/-- The tagged union of the two RSA variants. -/
inductive AsymmetricEncryption where
  | rsa2048OaepSha1 (v : Rsa2048OaepSha1)
  | rsa2048OaepSha256 (v : Rsa2048OaepSha256)
  deriving DecidableEq, Repr

/-- `Parse for AsymmetricEncryption`: tag `3` is SHA-256, tag `4` is
SHA-1, anything else reports the accepted set. -/
def AsymmetricEncryption.parse (s : List Char) :
    PResult AsymmetricParseError AsymmetricEncryption :=
  match parseTypeTag s with
  | .panicked => .panicked
  | .err e => .err (.parseEncryptionType e)
  | .ok (ty, _) =>
      match ty with
      | 3 => ((Rsa2048OaepSha256.parse s).mapErr .rsa2048OaepSha256).map
               .rsa2048OaepSha256
      | 4 => ((Rsa2048OaepSha1.parse s).mapErr .rsa2048OaepSha1).map .rsa2048OaepSha1
      | ty => .err (.invalidEncryptionType [3, 4] ty)

/-- `Display for AsymmetricEncryption`: delegate to the variant. -/
def AsymmetricEncryption.display : AsymmetricEncryption → List Char
  | .rsa2048OaepSha1 v => v.display
  | .rsa2048OaepSha256 v => v.display

/-! ## `cipher_string.rs` (and the identical earlier copy in `lib.rs`) -/

/-- `CipherParseError`. -/
inductive CipherParseError where
  | unsupportedEncryptionType
  | ivNotFound
  | ciphertextNotFound
  | macNotFound
  | invalidIvLength
  | invalidMacKeyLength
  | parseType (e : ParseIntError)
  | decode (e : DecodeError)
  deriving DecidableEq, Repr

/-- `CipherDecryptionError`. -/
inductive CipherDecryptionError where
  | macVerification
  | blockMode (e : BlockModeError)
  deriving DecidableEq, Repr

/-- `CipherString { iv, mac, ciphertext }`. -/
structure CipherString where
  iv : List Nat
  mac : List Nat
  ciphertext : List Nat
  deriving DecidableEq, Repr

/-- `CipherString::parse`: only tag `2` is supported; segments
`iv|ciphertext|mac`; lengths checked at struct construction. -/
def CipherString.parse (s : List Char) : PResult CipherParseError CipherString :=
  match parseTypeTag s with
  | .panicked => .panicked
  | .err e => .err (.parseType e)
  | .ok (ty, rest) =>
      if ty ≠ 2 then .err .unsupportedEncryptionType
      else
        let parts := splitPipe rest
        match parts.get? 0 with
        | none => .err .ivNotFound
        | some ivSeg =>
            match b64Decode ivSeg with
            | .error e => .err (.decode e)
            | .ok iv =>
                match parts.get? 1 with
                | none => .err .ciphertextNotFound
                | some ctSeg =>
                    match b64Decode ctSeg with
                    | .error e => .err (.decode e)
                    | .ok ct =>
                        match parts.get? 2 with
                        | none => .err .macNotFound
                        | some macSeg =>
                            match b64Decode macSeg with
                            | .error e => .err (.decode e)
                            | .ok mac =>
                                if iv.length = 16 then
                                  if mac.length = 32 then .ok ⟨iv, mac, ct⟩
                                  else .err .invalidMacKeyLength
                                else .err .invalidIvLength

/-- `CipherString::encrypt` with the IV explicit: AES-256-CBC, then
HMAC-SHA256 over `iv || ciphertext`. -/
def CipherString.encrypt (P : Prims) (iv pt enc mac : List Nat) :
    PResult Unit CipherString :=
  (fromSlice 32 enc).bind fun encKey =>
    (fromSlice 16 iv).bind fun iv' =>
      let ct := encryptVec (P.aes256Enc encKey) iv' pt
      .ok ⟨iv', P.hmacSha256 mac (iv' ++ ct), ct⟩

/-- `CipherString::decrypt_raw`: verify the HMAC over
`iv || ciphertext` first, then CBC-decrypt. -/
def CipherString.decrypt_raw (P : Prims) (v : CipherString) (enc mac : List Nat) :
    PResult CipherDecryptionError (List Nat) :=
  if P.hmacSha256 mac (v.iv ++ v.ciphertext) = v.mac then
    (fromSlice 32 enc).bind fun encKey =>
      (fromSlice 16 v.iv).bind fun iv =>
        exceptToPResult .blockMode (decryptVec (P.aes256Dec encKey) iv v.ciphertext)
  else .err .macVerification

/-- `Display for CipherString`: `2.<iv>|<ciphertext>|<mac>`. -/
def CipherString.display (v : CipherString) : List Char :=
  '2' :: '.' :: (b64Encode v.iv ++ '|' :: (b64Encode v.ciphertext ++ '|' :: b64Encode v.mac))

/-! ## Key derivation: `source_key.rs`, `symmetric_key.rs`, `keys.rs`,
`lib.rs` -/

/-- `SourceKey([u8; 32])`. -/
structure SourceKey where
  key : List Nat
  deriving DecidableEq, Repr

/-- The bytes of `b"enc"`. -/
def encInfo : List Nat := [101, 110, 99]

/-- The bytes of `b"mac"`. -/
def macInfo : List Nat := [109, 97, 99]

/-- `expand_keys` / `SourceKey::expand`: HKDF-SHA256 expand-only with
labels `enc` and `mac`, 32 bytes each; `from_prk(..).unwrap()` panics
(`none`) when the pseudorandom key is shorter than the hash output. -/
def expandKeys (P : Prims) (masterKey : List Nat) : Option (List Nat × List Nat) :=
  if 32 ≤ masterKey.length then
    some (P.hkdfSha256Expand masterKey encInfo 32, P.hkdfSha256Expand masterKey macInfo 32)
  else none

/-- `SourceKey::expand`. -/
def SourceKey.expand (P : Prims) (sk : SourceKey) : Option (List Nat × List Nat) :=
  expandKeys P sk.key

/-- `SymmetricKeyError`. -/
inductive SymmetricKeyError where
  | invalidLength
  | unsupportedEncryptionType
  | aesCbc256Decryption (e : BlockModeError)
  | aesCbc256HmacSha256Decryption (e : AesCbcHmacSha256DecryptionError)
  deriving DecidableEq, Repr

/-- `SymmetricKey::new` on the protected symmetric key blob (the
`SymmetricEncryptedBytes` newtype is transparent): the legacy variant is
decrypted with the raw source key and yields `mac = None` after a
32-byte length check; the type-1 variant is rejected; the authenticated
variant is decrypted with the HKDF-expanded pair and the 64-byte
plaintext is split into the two key halves. -/
def SymmetricKey.new (P : Prims) (sourceKey : SourceKey)
    (protectedKey : SymmetricEncryption) : PResult SymmetricKeyError SymmetricKey :=
  match protectedKey with
  | .aesCbc256 v =>
      ((AesCbc256.decrypt P v sourceKey.key).mapErr .aesCbc256Decryption).bind
        fun encKey =>
          if encKey.length = 32 then .ok ⟨encKey, none⟩
          else .err .invalidLength
  | .aesCbc128HmacSha256 _ => .err .unsupportedEncryptionType
  | .aesCbc256HmacSha256 v =>
      match SourceKey.expand P sourceKey with
      | none => .panicked
      | some (enc, mac) =>
          ((AesCbc256HmacSha256.decrypt P v enc mac).mapErr
              .aesCbc256HmacSha256Decryption).bind fun keys =>
            if keys.length ≠ 64 then .err .invalidLength
            else .ok ⟨keys.take 32, some ((keys.drop 32).take 32)⟩

/-- `Keys { enc, mac }` of the earlier API layer. -/
structure Keys where
  enc : List Nat
  mac : List Nat
  deriving DecidableEq, Repr

/-- `Keys::derive` (`lib.rs`): expand the master key, decrypt the
protected blob, then take `keys[0..32]` and `keys[32..64]` with **no**
length check — the slice indexing panics when the plaintext is shorter
than 64 bytes, and longer plaintexts are silently truncated. -/
def Keys.derive (P : Prims) (masterKey : List Nat) (protectedKey : CipherString) :
    PResult CipherDecryptionError Keys :=
  match expandKeys P masterKey with
  | none => .panicked
  | some (enc, mac) =>
      (CipherString.decrypt_raw P protectedKey enc mac).bind fun keys =>
        if 64 ≤ keys.length then .ok ⟨keys.take 32, (keys.drop 32).take 32⟩
        else .panicked

/-- `Keys::new` (`keys.rs`): `SourceKey::expand` then the same
uncheck-ed `keys[0..32]` / `keys[32..64]` split. -/
def Keys.new (P : Prims) (sourceKey : SourceKey) (protectedKey : CipherString) :
    PResult CipherDecryptionError Keys :=
  Keys.derive P sourceKey.key protectedKey

/-! ## Well-formedness (the guarantees of the Rust array types) -/

/-- Well-formedness of a type-0 value: the `[u8; 16]` IV and `Vec<u8>`
ciphertext. -/
def AesCbc256.Wf (v : AesCbc256) : Prop :=
  v.iv.length = 16 ∧ AllBytes v.iv ∧ AllBytes v.ciphertext

/-- Well-formedness of a type-1 value. -/
def AesCbc128HmacSha256.Wf (v : AesCbc128HmacSha256) : Prop :=
  v.iv.length = 16 ∧ v.mac.length = 32 ∧ AllBytes v.iv ∧ AllBytes v.mac ∧
    AllBytes v.ciphertext

/-- Well-formedness of a type-2 value. -/
def AesCbc256HmacSha256.Wf (v : AesCbc256HmacSha256) : Prop :=
  v.iv.length = 16 ∧ v.mac.length = 32 ∧ AllBytes v.iv ∧ AllBytes v.mac ∧
    AllBytes v.ciphertext

/-- Well-formedness of a symmetric encrypted value. -/
def SymmetricEncryption.Wf : SymmetricEncryption → Prop
  | .aesCbc256 v => v.Wf
  | .aesCbc128HmacSha256 v => v.Wf
  | .aesCbc256HmacSha256 v => v.Wf

/-- Well-formedness of an asymmetric encrypted value. -/
def AsymmetricEncryption.Wf : AsymmetricEncryption → Prop
  | .rsa2048OaepSha1 v => AllBytes v.ciphertext
  | .rsa2048OaepSha256 v => AllBytes v.ciphertext

/-- Well-formedness of a `CipherString`. -/
def CipherString.Wf (v : CipherString) : Prop :=
  v.iv.length = 16 ∧ v.mac.length = 32 ∧ AllBytes v.iv ∧ AllBytes v.mac ∧
    AllBytes v.ciphertext

/-! ## Test-harness notions -/

/-- Flip bit `i` of a byte string (bit `i % 8` of byte `i / 8`). -/
def flipBit : List Nat → Nat → List Nat
  | [], _ => []
  | x :: xs, i => if i < 8 then (x ^^^ 2 ^ i) :: xs else x :: flipBit xs (i - 8)

/-- Concrete primitives used to instantiate witnesses: identity block
ciphers and a truncating keyed hash. -/
def toyPrims : Prims where
  hmacSha256 := fun _ m => m.take 32
  aes256Enc := fun _ b => b
  aes256Dec := fun _ b => b
  aes128Enc := fun _ b => b
  aes128Dec := fun _ b => b
  hkdfSha256Expand := fun _ info _ => List.replicate 16 0 ++ info ++ List.replicate 13 0
  pbkdf2HmacSha256 := fun _ _ _ n => List.replicate n 7

/-- Witness IV: 16 zero bytes. -/
def wIv : List Nat := List.replicate 16 0

/-- Witness 32-byte encryption key. -/
def wEnc : List Nat := List.replicate 32 2

/-- Witness 32-byte MAC key. -/
def wMac : List Nat := List.replicate 32 3

/-- Witness ciphertext: `[1, 2, 3]` PKCS#7-padded, as produced by the
identity block cipher under the zero IV. -/
def wCt : List Nat := [1, 2, 3] ++ List.replicate 13 13

/-- The toy-primitive encryption of `[1, 2, 3]` as a type-2 value. -/
def wVal : AesCbc256HmacSha256 := ⟨wIv, wIv ++ wCt, wCt⟩

/-- The same bytes as a `CipherString`. -/
def wCs : CipherString := ⟨wIv, wIv ++ wCt, wCt⟩

/-- A protected-key blob whose toy decryption succeeds with the empty
byte string (a full block of PKCS#7 padding). -/
def wShortBlob : CipherString :=
  ⟨wIv, wIv ++ List.replicate 16 16, List.replicate 16 16⟩

/-! ## Helper lemmas -/

theorem b64Val_b64Chr (v : Nat) (h : v < 64) : b64Val (b64Chr v) = some v := by
  have key : ∀ n : Fin 64, b64Val (b64Chr n.val) = some n.val := by decide
  exact key ⟨v, h⟩

theorem b64Chr_ne_pad (v : Nat) (h : v < 64) : b64Chr v ≠ '=' := by
  have key : ∀ n : Fin 64, b64Chr n.val ≠ '=' := by decide
  exact key ⟨v, h⟩

theorem b64Chr_ascii (v : Nat) (h : v < 64) : (b64Chr v).toNat < 128 := by
  have key : ∀ n : Fin 64, (b64Chr n.val).toNat < 128 := by decide
  exact key ⟨v, h⟩

theorem b64Chr_ne_pipe (v : Nat) (h : v < 64) : b64Chr v ≠ '|' := by
  have key : ∀ n : Fin 64, b64Chr n.val ≠ '|' := by decide
  exact key ⟨v, h⟩

theorem b64Chr_ne_dot (v : Nat) (h : v < 64) : b64Chr v ≠ '.' := by
  have key : ∀ n : Fin 64, b64Chr n.val ≠ '.' := by decide
  exact key ⟨v, h⟩

/-- Decoding inverts encoding on genuine byte lists. -/
theorem b64_roundtrip : ∀ l : List Nat, AllBytes l → b64Decode (b64Encode l) = .ok l
  | [], _ => rfl
  | [a], h => by
      have ha : a < 256 := h a (by simp)
      have h1 : a / 4 < 64 := by omega
      have h2 : a % 4 * 16 < 64 := by omega
      simp only [b64Encode, b64Decode, b64Val_b64Chr _ h1, b64Val_b64Chr _ h2]
      have hm : a % 4 * 16 % 16 = 0 := by omega
      simp only [hm, if_pos (And.intro rfl rfl), if_pos rfl]
      have e1 : a / 4 * 4 + a % 4 * 16 / 16 = a := by omega
      rw [e1]
      simp
  | [a, b], h => by
      have ha : a < 256 := h a (by simp)
      have hb : b < 256 := h b (by simp)
      have h1 : a / 4 < 64 := by omega
      have h2 : a % 4 * 16 + b / 16 < 64 := by omega
      have h3 : b % 16 * 4 < 64 := by omega
      simp only [b64Encode, b64Decode, b64Val_b64Chr _ h1, b64Val_b64Chr _ h2,
        if_neg (b64Chr_ne_pad _ h3), b64Val_b64Chr _ h3, if_pos rfl]
      have hm : b % 16 * 4 % 4 = 0 := by omega
      simp only [hm, if_pos rfl]
      have e1 : a / 4 * 4 + (a % 4 * 16 + b / 16) / 16 = a := by omega
      have e2 : (a % 4 * 16 + b / 16) % 16 * 16 + b % 16 * 4 / 4 = b := by omega
      rw [e1, e2]
      simp
  | a :: b :: c :: rest, h => by
      have ha : a < 256 := h a (by simp)
      have hb : b < 256 := h b (by simp)
      have hc : c < 256 := h c (by simp)
      have hrest : AllBytes rest := fun x hx => h x (by simp [hx])
      have h1 : a / 4 < 64 := by omega
      have h2 : a % 4 * 16 + b / 16 < 64 := by omega
      have h3 : b % 16 * 4 + c / 64 < 64 := by omega
      have h4 : c % 64 < 64 := by omega
      have ih := b64_roundtrip rest hrest
      simp only [b64Encode, b64Decode, b64Val_b64Chr _ h1, b64Val_b64Chr _ h2,
        if_neg (b64Chr_ne_pad _ h3), b64Val_b64Chr _ h3,
        if_neg (b64Chr_ne_pad _ h4), b64Val_b64Chr _ h4, ih, Except.map]
      have e1 : a / 4 * 4 + (a % 4 * 16 + b / 16) / 16 = a := by omega
      have e2 : (a % 4 * 16 + b / 16) % 16 * 16 + (b % 16 * 4 + c / 64) / 4 = b := by omega
      have e3 : (b % 16 * 4 + c / 64) % 4 * 64 + c % 64 = c := by omega
      rw [e1, e2, e3]


theorem splitPipe_ne_nil : ∀ l : List Char, splitPipe l ≠ []
  | [] => by simp [splitPipe]
  | c :: rest => by
      simp only [splitPipe]
      split
      · simp
      · cases hs : splitPipe rest <;> simp

/-- A separator-free list is a single segment. -/
theorem splitPipe_no_pipe : ∀ l : List Char, '|' ∉ l → splitPipe l = [l]
  | [], _ => rfl
  | c :: rest, h => by
      have hc : ¬(c = '|') := fun hc => h (by simp [hc])
      have hr : '|' ∉ rest := fun hr => h (by simp [hr])
      simp only [splitPipe, if_neg hc, splitPipe_no_pipe rest hr]

/-- Splitting after a separator-free first segment. -/
theorem splitPipe_append : ∀ a r : List Char, '|' ∉ a →
    splitPipe (a ++ '|' :: r) = a :: splitPipe r
  | [], r, _ => by simp [splitPipe]
  | c :: a, r, h => by
      have hc : ¬(c = '|') := fun hc => h (by simp [hc])
      have ha : '|' ∉ a := fun ha => h (by simp [ha])
      have ih := splitPipe_append a r ha
      simp only [List.cons_append, splitPipe, if_neg hc]
      rw [show List.append a ('|' :: r) = a ++ '|' :: r from rfl, ih]


/-- On an input starting with a one-byte non-dot character followed by a
dot, the shared parse head succeeds in slicing and hands the single
leading character to the integer parser. -/
theorem parseTypeTag_cons (d : Char) (rest : List Char) (hdot : d ≠ '.')
    (hlen : utf8Len d = 1) :
    parseTypeTag (d :: '.' :: rest) =
      match parseUsize [d] with
      | .error e => .err e
      | .ok ty => .ok (ty, rest) := by
  have hidx : (d :: '.' :: rest).findIdx? (· == '.') = some 1 := by
    rw [List.findIdx?_cons]
    simp [hdot]
  have htake : takeBytes (d :: '.' :: rest) 1 = some [d] := by
    simp [takeBytes, hlen]
  simp only [parseTypeTag, tyEndIdx, restAfterDot, hidx, Option.getD_some, htake]
  rfl


theorem listXor_length (a b : List Nat) : (listXor a b).length = min a.length b.length := by
  simp [listXor]

theorem listXor_cancel : ∀ a x : List Nat, a.length = x.length →
    listXor a (listXor a x) = x
  | [], [], _ => rfl
  | a :: as, x :: xs, h => by
      simp only [listXor, List.zipWith_cons_cons] at *
      have ih := listXor_cancel as xs (by simpa using h)
      simp only [listXor] at ih
      rw [ih]
      simp [Nat.xor_comm, Nat.xor_cancel_left]

theorem cbcEncBlocks_length (E : List Nat → List Nat)
    (hE : ∀ b : List Nat, b.length = 16 → (E b).length = 16) :
    ∀ (n : Nat) (iv pt : List Nat), iv.length = 16 → pt.length = 16 * n →
      (cbcEncBlocks E n iv pt).length = 16 * n := by
  intro n
  induction n with
  | zero => intro iv pt _ _; simp [cbcEncBlocks]
  | succ n ih =>
      intro iv pt hiv hpt
      have htake : (pt.take 16).length = 16 := by
        simp [List.length_take]; omega
      have hx : (listXor iv (pt.take 16)).length = 16 := by
        rw [listXor_length, hiv, htake]; simp
      have hc : (E (listXor iv (pt.take 16))).length = 16 := hE _ hx
      have hdrop : (pt.drop 16).length = 16 * n := by
        simp [List.length_drop, hpt]; omega
      simp only [cbcEncBlocks, List.length_append, hc, ih _ _ hc hdrop]
      omega

theorem cbcDecBlocks_cbcEncBlocks (E D : List Nat → List Nat)
    (hE : ∀ b : List Nat, b.length = 16 → (E b).length = 16)
    (hD : ∀ b : List Nat, b.length = 16 → D (E b) = b) :
    ∀ (n : Nat) (iv pt : List Nat), iv.length = 16 → pt.length = 16 * n →
      cbcDecBlocks D n iv (cbcEncBlocks E n iv pt) = pt := by
  intro n
  induction n with
  | zero =>
      intro iv pt _ hpt
      have : pt = [] := List.length_eq_zero.mp (by omega)
      simp [cbcEncBlocks, cbcDecBlocks, this]
  | succ n ih =>
      intro iv pt hiv hpt
      have htake : (pt.take 16).length = 16 := by
        simp [List.length_take]; omega
      have hx : (listXor iv (pt.take 16)).length = 16 := by
        rw [listXor_length, hiv, htake]; simp
      have hc : (E (listXor iv (pt.take 16))).length = 16 := hE _ hx
      have hdrop : (pt.drop 16).length = 16 * n := by
        simp [List.length_drop, hpt]; omega
      simp only [cbcEncBlocks, cbcDecBlocks]
      rw [List.take_left' hc, List.drop_left' hc]
      rw [hD _ hx, listXor_cancel iv (pt.take 16) (by rw [hiv, htake])]
      rw [ih _ _ hc hdrop, List.take_append_drop]

theorem pkcs7PadLen_pos (n : Nat) : 1 ≤ pkcs7PadLen n := by
  unfold pkcs7PadLen; omega

theorem pkcs7PadLen_le (n : Nat) : pkcs7PadLen n ≤ 16 := by
  unfold pkcs7PadLen; omega

theorem pkcs7Pad_length (pt : List Nat) :
    (pkcs7Pad pt).length = pt.length + pkcs7PadLen pt.length := by
  simp [pkcs7Pad]

theorem pkcs7Pad_length_mod (pt : List Nat) : (pkcs7Pad pt).length % 16 = 0 := by
  rw [pkcs7Pad_length]; unfold pkcs7PadLen; omega

theorem pkcs7Unpad_append (pt : List Nat) (k : Nat) (hk1 : 1 ≤ k) (hk16 : k ≤ 16) :
    pkcs7Unpad (pt ++ List.replicate k k) = .ok pt := by
  have hlen : (pt ++ List.replicate k k).length = pt.length + k := by simp
  have hrep : (List.replicate k k).getLast? = some k := by
    cases k with
    | zero => omega
    | succ m => rw [List.replicate_succ', List.getLast?_concat]
  have hlast : (pt ++ List.replicate k k).getLast? = some k := by
    rw [List.getLast?_append, hrep]; rfl
  have hsub : (pt ++ List.replicate k k).length - k = pt.length := by
    rw [hlen]; omega
  have hdrop : (pt ++ List.replicate k k).drop pt.length = List.replicate k k :=
    List.drop_left _ _
  have htake : (pt ++ List.replicate k k).take pt.length = pt := List.take_left _ _
  have hall : (List.replicate k k).all (· == k) = true := by
    simp [List.all_eq_true, List.mem_replicate]
  have hcond3 : k ≤ (pt ++ List.replicate k k).length := by rw [hlen]; omega
  simp only [pkcs7Unpad, hlast, hsub, hdrop, htake, hall]
  rw [if_pos ⟨hk1, hk16, hcond3, trivial⟩]

theorem pkcs7Unpad_pkcs7Pad (pt : List Nat) : pkcs7Unpad (pkcs7Pad pt) = .ok pt := by
  unfold pkcs7Pad
  exact pkcs7Unpad_append pt _ (pkcs7PadLen_pos _) (pkcs7PadLen_le _)

/-- `decrypt_vec` inverts `encrypt_vec` for any block cipher pair that
is a 16-byte inverse. -/
theorem decryptVec_encryptVec (E D : List Nat → List Nat)
    (hE : ∀ b : List Nat, b.length = 16 → (E b).length = 16)
    (hD : ∀ b : List Nat, b.length = 16 → D (E b) = b)
    (iv pt : List Nat) (hiv : iv.length = 16) :
    decryptVec D iv (encryptVec E iv pt) = .ok pt := by
  have hmod := pkcs7Pad_length_mod pt
  set padded := pkcs7Pad pt with hpadded
  have hdiv : padded.length = 16 * (padded.length / 16) := by omega
  have hlen : (cbcEncBlocks E (padded.length / 16) iv padded).length =
      16 * (padded.length / 16) :=
    cbcEncBlocks_length E hE _ iv padded hiv hdiv
  unfold decryptVec encryptVec
  rw [← hpadded, hlen]
  have hm : 16 * (padded.length / 16) % 16 = 0 := by omega
  rw [if_pos hm]
  have hq : 16 * (padded.length / 16) / 16 = padded.length / 16 := by omega
  rw [hq]
  rw [cbcDecBlocks_cbcEncBlocks E D hE hD _ iv padded hiv hdiv]
  exact pkcs7Unpad_pkcs7Pad pt


theorem flipBit_ne : ∀ (l : List Nat) (i : Nat), i < 8 * l.length → flipBit l i ≠ l
  | [], i, h => by simp at h
  | x :: xs, i, h => by
      simp only [flipBit]
      by_cases hi : i < 8
      · rw [if_pos hi]
        intro heq
        have hx : x ^^^ 2 ^ i = x := ((List.cons.injEq _ _ _ _).mp heq).1
        have h2 : x ^^^ (x ^^^ 2 ^ i) = x ^^^ x := congrArg (x ^^^ ·) hx
        rw [Nat.xor_cancel_left, Nat.xor_self] at h2
        have hpos : 0 < 2 ^ i := pow_pos (by norm_num) i
        omega
      · rw [if_neg hi]
        intro heq
        have htl : flipBit xs (i - 8) = xs := ((List.cons.injEq _ _ _ _).mp heq).2
        have hlen : i - 8 < 8 * xs.length := by
          simp only [List.length_cons] at h; omega
        exact flipBit_ne xs (i - 8) hlen htl

/-! ## Claim theorems -/

/-- Claim C1: for every `AesCbc256HmacSha256` value and key pair,
`decrypt` recomputes HMAC-SHA256 over `iv || ciphertext` with the MAC
key and compares it with the stored MAC first: on mismatch the result is
exactly the distinct `MacVerification` error (so never a block-mode /
padding error and never a plaintext), and the CBC decryption chain is
reached only when the MAC verifies.  The same holds for
`CipherString::decrypt_raw`. -/
theorem c1_mac_checked_before_decrypt (P : Prims) (v : AesCbc256HmacSha256)
    (w : CipherString) (enc mac enc' mac' : List Nat) :
    (P.hmacSha256 mac (v.iv ++ v.ciphertext) ≠ v.mac →
      AesCbc256HmacSha256.decrypt P v enc mac =
        .err AesCbcHmacSha256DecryptionError.macVerification) ∧
    (P.hmacSha256 mac (v.iv ++ v.ciphertext) = v.mac →
      AesCbc256HmacSha256.decrypt P v enc mac =
        (fromSlice 32 enc).bind fun encKey =>
          (fromSlice 16 v.iv).bind fun iv =>
            exceptToPResult AesCbcHmacSha256DecryptionError.blockMode
              (decryptVec (P.aes256Dec encKey) iv v.ciphertext)) ∧
    (P.hmacSha256 mac' (w.iv ++ w.ciphertext) ≠ w.mac →
      CipherString.decrypt_raw P w enc' mac' =
        .err CipherDecryptionError.macVerification) ∧
    (P.hmacSha256 mac' (w.iv ++ w.ciphertext) = w.mac →
      CipherString.decrypt_raw P w enc' mac' =
        (fromSlice 32 enc').bind fun encKey =>
          (fromSlice 16 w.iv).bind fun iv =>
            exceptToPResult CipherDecryptionError.blockMode
              (decryptVec (P.aes256Dec encKey) iv w.ciphertext)) := by
  refine ⟨fun h => ?_, fun h => ?_, fun h => ?_, fun h => ?_⟩
  · simp only [AesCbc256HmacSha256.decrypt, if_neg h]
  · simp only [AesCbc256HmacSha256.decrypt, if_pos h]
  · simp only [CipherString.decrypt_raw, if_neg h]
  · simp only [CipherString.decrypt_raw, if_pos h]

/-- Witness for C1: a concrete MAC mismatch short-circuits both
decryption functions. -/
theorem c1_mac_checked_before_decrypt_witness :
    AesCbc256HmacSha256.decrypt toyPrims ⟨wIv, List.replicate 32 0, wCt⟩ wEnc wMac =
      .err AesCbcHmacSha256DecryptionError.macVerification ∧
    CipherString.decrypt_raw toyPrims ⟨wIv, List.replicate 32 0, wCt⟩ wEnc wMac =
      .err CipherDecryptionError.macVerification :=
  ⟨(c1_mac_checked_before_decrypt toyPrims ⟨wIv, List.replicate 32 0, wCt⟩
      ⟨wIv, List.replicate 32 0, wCt⟩ wEnc wMac wEnc wMac).1 (by decide),
   (c1_mac_checked_before_decrypt toyPrims ⟨wIv, List.replicate 32 0, wCt⟩
      ⟨wIv, List.replicate 32 0, wCt⟩ wEnc wMac wEnc wMac).2.2.1 (by decide)⟩

/-- Claim C4 (refuted, recorded as a code bug): `AesCbc256::decrypt` is
supposed to CBC-decrypt with AES-256 and never panic, but the impl
builds `Cbc::<Aes128, Pkcs7>` whose `GenericArray::from_slice` asserts a
16-byte key against the 32-byte `enc` parameter, so the call panics even
on a value freshly produced by `AesCbc256::encrypt`. -/
theorem c4_aesCbc256_decrypt_panics :
    AesCbc256.encrypt toyPrims wIv [1, 2, 3] wEnc = .ok ⟨wIv, wCt⟩ ∧
    AesCbc256.decrypt toyPrims ⟨wIv, wCt⟩ wEnc = .panicked := by decide

/-- Claim C5 (refuted, recorded as a code bug): the parse functions are
supposed never to panic, but each computes the dot position in chars and
byte-slices with it; the two-character input `é.` makes every one of
them slice inside the two-byte character and panic. -/
theorem c5_parse_panics_on_multibyte_char :
    SymmetricEncryption.parse ['é', '.'] = .panicked ∧
    AsymmetricEncryption.parse ['é', '.'] = .panicked ∧
    CipherString.parse ['é', '.'] = .panicked := by decide

/-- Claim C6 (refuted for the old layer, recorded as a code bug): a
protected-key blob whose plaintext decrypts successfully to the empty
byte string (length ≠ 64) makes `Keys::derive` panic in the unchecked
`keys[0..32]` slice instead of returning an error. -/
theorem c6_keys_derive_panics_on_short_plaintext :
    CipherString.decrypt_raw toyPrims wShortBlob
        (toyPrims.hkdfSha256Expand (List.replicate 32 1) encInfo 32)
        (toyPrims.hkdfSha256Expand (List.replicate 32 1) macInfo 32) = .ok [] ∧
    Keys.derive toyPrims (List.replicate 32 1) wShortBlob = .panicked := by decide

/-- Claim C7 (refuted, recorded as a code bug): on a legacy type-0
protected-key blob `SymmetricKey::new` passes the raw source key (not
the HKDF `enc` half) to `AesCbc256::decrypt`, which panics on its
AES-128 key-size assertion, so no `SymmetricKey` with `mac = None` is
ever produced. -/
theorem c7_legacy_unwrap_panics :
    SymmetricKey.new toyPrims ⟨List.replicate 32 1⟩ (.aesCbc256 ⟨wIv, wCt⟩) =
      .panicked := by decide

/-- Claim C10: values of the type-1 variant are rejected with
`UnsupportedEncryptionType` both by the suite-level
`SymmetricEncryption::decrypt` and by `SymmetricKey::new`; the only
decryption path for them is the standalone
`AesCbc128HmacSha256::decrypt`, which takes 16-byte keys and runs
MAC-then-CBC. -/
theorem c10_type1_unsupported (P : Prims) (v : AesCbc128HmacSha256)
    (k : SymmetricKey) (sk : SourceKey) (enc mac : List Nat) :
    SymmetricEncryption.decrypt P (.aesCbc128HmacSha256 v) k =
      .err SymmetricDecryptionError.unsupportedEncryptionType ∧
    SymmetricKey.new P sk (.aesCbc128HmacSha256 v) =
      .err SymmetricKeyError.unsupportedEncryptionType ∧
    (P.hmacSha256 mac (v.iv ++ v.ciphertext) = v.mac →
      AesCbc128HmacSha256.decrypt P v enc mac =
        (fromSlice 16 enc).bind fun encKey =>
          (fromSlice 16 v.iv).bind fun iv =>
            exceptToPResult AesCbcHmacSha256DecryptionError.blockMode
              (decryptVec (P.aes128Dec encKey) iv v.ciphertext)) :=
  ⟨rfl, rfl, fun h => by simp only [AesCbc128HmacSha256.decrypt, if_pos h]⟩

/-- Witness for C10: the standalone type-1 decrypt at a concrete
matching input, with 16-byte keys, reaches CBC and recovers the
plaintext. -/
theorem c10_type1_unsupported_witness :
    AesCbc128HmacSha256.decrypt toyPrims ⟨wIv, wIv ++ wCt, wCt⟩
      (List.replicate 16 5) (List.replicate 16 6) = .ok [1, 2, 3] :=
  ((c10_type1_unsupported toyPrims ⟨wIv, wIv ++ wCt, wCt⟩ ⟨wEnc, none⟩
      ⟨List.replicate 32 1⟩ (List.replicate 16 5) (List.replicate 16 6)).2.2
    (by decide)).trans (by decide)

/-- Claim C3: for every plaintext (including the empty one), IV and key
pair, decrypting the result of `AesCbc256HmacSha256::encrypt`
(equivalently `CipherString::encrypt`) with the same keys returns the
plaintext, given that the external AES-256 primitive pair is a 16-byte
block inverse under that key. -/
theorem c3_decrypt_encrypt_roundtrip (P : Prims) (iv pt enc mac : List Nat)
    (v : AesCbc256HmacSha256) (w : CipherString)
    (hlen : ∀ b : List Nat, b.length = 16 → (P.aes256Enc enc b).length = 16)
    (hinv : ∀ b : List Nat, b.length = 16 → P.aes256Dec enc (P.aes256Enc enc b) = b)
    (hiv : iv.length = 16)
    (henc : AesCbc256HmacSha256.encrypt P iv pt enc mac = .ok v)
    (hencw : CipherString.encrypt P iv pt enc mac = .ok w) :
    AesCbc256HmacSha256.decrypt P v enc mac = .ok pt ∧
    CipherString.decrypt_raw P w enc mac = .ok pt := by
  have h32 : enc.length = 32 := by
    by_contra h32
    simp only [AesCbc256HmacSha256.encrypt, fromSlice, if_neg h32, PResult.bind] at henc
    exact PResult.noConfusion henc
  have hrt := decryptVec_encryptVec (P.aes256Enc enc) (P.aes256Dec enc) hlen hinv iv pt hiv
  constructor
  · simp only [AesCbc256HmacSha256.encrypt, fromSlice, if_pos h32, if_pos hiv,
      PResult.bind] at henc
    injection henc with hv
    subst hv
    simp only [AesCbc256HmacSha256.decrypt, if_pos rfl, fromSlice, if_pos h32,
      if_pos hiv, PResult.bind, hrt]
    rfl
  · simp only [CipherString.encrypt, fromSlice, if_pos h32, if_pos hiv,
      PResult.bind] at hencw
    injection hencw with hw
    subst hw
    simp only [CipherString.decrypt_raw, if_pos rfl, fromSlice, if_pos h32,
      if_pos hiv, PResult.bind, hrt]
    rfl

/-- Witness for C3 under the toy primitives at `pt = [1, 2, 3]`. -/
theorem c3_decrypt_encrypt_roundtrip_witness :
    AesCbc256HmacSha256.decrypt toyPrims wVal wEnc wMac = .ok [1, 2, 3] ∧
    CipherString.decrypt_raw toyPrims wCs wEnc wMac = .ok [1, 2, 3] :=
  c3_decrypt_encrypt_roundtrip toyPrims wIv [1, 2, 3] wEnc wMac wVal wCs
    (fun b hb => by simpa [toyPrims] using hb) (fun b hb => by simp [toyPrims])
    (by decide) (by decide) (by decide)

/-- Claim C2: flipping any single bit of the stored MAC of an encrypted
value makes `decrypt` under the same key pair fail with the MAC
verification error, unconditionally; flipping any single bit of the IV
or of the ciphertext does so as well whenever the (external) HMAC
distinguishes the flipped input — in every case the result equals the
MAC error, never `ok` with a wrong plaintext. -/
theorem c2_bit_flip_rejected (P : Prims) (iv pt enc mac : List Nat) (i : Nat)
    (v : AesCbc256HmacSha256)
    (henc : AesCbc256HmacSha256.encrypt P iv pt enc mac = .ok v) :
    (i < 8 * v.mac.length →
      AesCbc256HmacSha256.decrypt P ⟨v.iv, flipBit v.mac i, v.ciphertext⟩ enc mac =
        .err AesCbcHmacSha256DecryptionError.macVerification) ∧
    (P.hmacSha256 mac (flipBit v.iv i ++ v.ciphertext) ≠
        P.hmacSha256 mac (v.iv ++ v.ciphertext) →
      AesCbc256HmacSha256.decrypt P ⟨flipBit v.iv i, v.mac, v.ciphertext⟩ enc mac =
        .err AesCbcHmacSha256DecryptionError.macVerification) ∧
    (P.hmacSha256 mac (v.iv ++ flipBit v.ciphertext i) ≠
        P.hmacSha256 mac (v.iv ++ v.ciphertext) →
      AesCbc256HmacSha256.decrypt P ⟨v.iv, v.mac, flipBit v.ciphertext i⟩ enc mac =
        .err AesCbcHmacSha256DecryptionError.macVerification) := by
  have h32 : enc.length = 32 := by
    by_contra h32
    simp only [AesCbc256HmacSha256.encrypt, fromSlice, if_neg h32, PResult.bind] at henc
    exact PResult.noConfusion henc
  have hiv : iv.length = 16 := by
    by_contra hiv
    simp only [AesCbc256HmacSha256.encrypt, fromSlice, if_pos h32, if_neg hiv,
      PResult.bind] at henc
    exact PResult.noConfusion henc
  simp only [AesCbc256HmacSha256.encrypt, fromSlice, if_pos h32, if_pos hiv,
    PResult.bind] at henc
  injection henc with hv
  subst hv
  refine ⟨fun hlt => ?_, fun hne => ?_, fun hne => ?_⟩
  · have hne := (flipBit_ne _ i hlt).symm
    simp only [AesCbc256HmacSha256.decrypt]
    exact if_neg hne
  · simp only [AesCbc256HmacSha256.decrypt]
    exact if_neg hne
  · simp only [AesCbc256HmacSha256.decrypt]
    exact if_neg hne

/-- Witness for C2: flipping bit 0 of the MAC, of the IV, and of the
ciphertext of the toy encryption of `[1, 2, 3]` is rejected. -/
theorem c2_bit_flip_rejected_witness :
    AesCbc256HmacSha256.decrypt toyPrims ⟨wIv, flipBit (wIv ++ wCt) 0, wCt⟩ wEnc wMac =
      .err AesCbcHmacSha256DecryptionError.macVerification ∧
    AesCbc256HmacSha256.decrypt toyPrims ⟨flipBit wIv 0, wIv ++ wCt, wCt⟩ wEnc wMac =
      .err AesCbcHmacSha256DecryptionError.macVerification ∧
    AesCbc256HmacSha256.decrypt toyPrims ⟨wIv, wIv ++ wCt, flipBit wCt 0⟩ wEnc wMac =
      .err AesCbcHmacSha256DecryptionError.macVerification :=
  ⟨(c2_bit_flip_rejected toyPrims wIv [1, 2, 3] wEnc wMac 0 wVal (by decide)).1
      (by decide),
   (c2_bit_flip_rejected toyPrims wIv [1, 2, 3] wEnc wMac 0 wVal (by decide)).2.1
      (by decide),
   (c2_bit_flip_rejected toyPrims wIv [1, 2, 3] wEnc wMac 0 wVal (by decide)).2.2
      (by decide)⟩

/-- Any type-2 input whose IV segment decodes to 15 bytes is rejected
by the shared three-segment parse, whatever follows. -/
theorem parseTagIvCtMac_iv15 (ivSeg : List Char) (ivBytes : List Nat)
    (rest : List Char) (hp : '|' ∉ ivSeg) (hdec : b64Decode ivSeg = .ok ivBytes)
    (h15 : ivBytes.length = 15) :
    ∃ e, parseTagIvCtMac 2 ('2' :: '.' :: (ivSeg ++ '|' :: rest)) = .err e := by
  have hptt : parseTypeTag ('2' :: '.' :: (ivSeg ++ '|' :: rest)) =
      .ok (2, ivSeg ++ '|' :: rest) := by
    rw [parseTypeTag_cons '2' _ (by decide) (by decide)]
    rfl
  have hsplit : splitPipe (ivSeg ++ '|' :: rest) = ivSeg :: splitPipe rest :=
    splitPipe_append ivSeg rest hp
  have h16 : ¬(ivBytes.length = 16) := by omega
  cases hrest : splitPipe rest with
  | nil => exact absurd hrest (splitPipe_ne_nil rest)
  | cons p ps =>
      cases hdp : b64Decode p with
      | error e =>
          exact ⟨.decode e, by simp [parseTagIvCtMac, hptt, hsplit, hrest, hdec, hdp]⟩
      | ok ct =>
          cases hps : ps[0]? with
          | none =>
              exact ⟨.macNotFound,
                by simp [parseTagIvCtMac, hptt, hsplit, hrest, hdec, hdp, hps]⟩
          | some q =>
              cases hdq : b64Decode q with
              | error e =>
                  exact ⟨.decode e,
                    by simp [parseTagIvCtMac, hptt, hsplit, hrest, hdec, hdp, hps, hdq]⟩
              | ok mac =>
                  exact ⟨.invalidIvLength,
                    by simp [parseTagIvCtMac, hptt, hsplit, hrest, hdec, hdp, hps,
                      hdq, h16]⟩

/-- Claim C9: the unknown tag `9.AAAA` is rejected with the
invalid-encryption-type error carrying the found tag and the accepted
set; `2.AAAA|BBBB` (missing MAC segment) is rejected; and any type-2
string whose IV segment decodes to 15 bytes is rejected — always a
returned parse error, never a panic or a default value. -/
theorem c9_malformed_rejected :
    SymmetricEncryption.parse ['9', '.', 'A', 'A', 'A', 'A'] =
      .err (SymmetricParseError.invalidEncryptionType [0, 1, 2] 9) ∧
    SymmetricEncryption.parse ['2', '.', 'A', 'A', 'A', 'A', '|', 'B', 'B', 'B', 'B'] =
      .err (SymmetricParseError.aesCbc256HmacSha256
        AesCbcHmacSha256ParseError.macNotFound) ∧
    (∀ (ivSeg : List Char) (ivBytes : List Nat) (rest : List Char),
      '|' ∉ ivSeg → b64Decode ivSeg = .ok ivBytes → ivBytes.length = 15 →
      ∃ e, SymmetricEncryption.parse ('2' :: '.' :: (ivSeg ++ '|' :: rest)) =
        .err e) := by
  refine ⟨by decide, by decide, fun ivSeg ivBytes rest hp hdec h15 => ?_⟩
  obtain ⟨e, he⟩ := parseTagIvCtMac_iv15 ivSeg ivBytes rest hp hdec h15
  have hptt : parseTypeTag ('2' :: '.' :: (ivSeg ++ '|' :: rest)) =
      .ok (2, ivSeg ++ '|' :: rest) := by
    rw [parseTypeTag_cons '2' _ (by decide) (by decide)]
    rfl
  refine ⟨.aesCbc256HmacSha256 e, ?_⟩
  simp only [SymmetricEncryption.parse, hptt, AesCbc256HmacSha256.parse, he,
    PResult.map, PResult.mapErr]

/-- Witness for C9's quantified part: a concrete 15-byte IV segment
followed by `CC|DD`. -/
theorem c9_malformed_rejected_witness :
    ∃ e, SymmetricEncryption.parse
      ('2' :: '.' :: (b64Encode (List.replicate 15 7) ++
        '|' :: ['C', 'C', '|', 'D', 'D'])) = .err e :=
  c9_malformed_rejected.2.2 (b64Encode (List.replicate 15 7))
    (List.replicate 15 7) ['C', 'C', '|', 'D', 'D']
    (by decide) rfl (by decide)

/-- Base64 output never contains the segment separator. -/
theorem b64Encode_no_pipe : ∀ l : List Nat, AllBytes l → '|' ∉ b64Encode l
  | [], _ => by simp [b64Encode]
  | [a], h => by
      have ha : a < 256 := h a (by simp)
      have h1 : a / 4 < 64 := by omega
      have h2 : a % 4 * 16 < 64 := by omega
      intro hmem
      simp only [b64Encode, List.mem_cons, List.not_mem_nil, or_false] at hmem
      rcases hmem with h' | h' | h' | h'
      · exact b64Chr_ne_pipe _ h1 h'.symm
      · exact b64Chr_ne_pipe _ h2 h'.symm
      · exact absurd h' (by decide)
      · exact absurd h' (by decide)
  | [a, b], h => by
      have ha : a < 256 := h a (by simp)
      have hb : b < 256 := h b (by simp)
      have h1 : a / 4 < 64 := by omega
      have h2 : a % 4 * 16 + b / 16 < 64 := by omega
      have h3 : b % 16 * 4 < 64 := by omega
      intro hmem
      simp only [b64Encode, List.mem_cons, List.not_mem_nil, or_false] at hmem
      rcases hmem with h' | h' | h' | h'
      · exact b64Chr_ne_pipe _ h1 h'.symm
      · exact b64Chr_ne_pipe _ h2 h'.symm
      · exact b64Chr_ne_pipe _ h3 h'.symm
      · exact absurd h' (by decide)
  | a :: b :: c :: rest, h => by
      have ha : a < 256 := h a (by simp)
      have hb : b < 256 := h b (by simp)
      have hc : c < 256 := h c (by simp)
      have hrest : AllBytes rest := fun x hx => h x (by simp [hx])
      have h1 : a / 4 < 64 := by omega
      have h2 : a % 4 * 16 + b / 16 < 64 := by omega
      have h3 : b % 16 * 4 + c / 64 < 64 := by omega
      have h4 : c % 64 < 64 := by omega
      intro hmem
      simp only [b64Encode, List.mem_cons] at hmem
      rcases hmem with h' | h' | h' | h' | h'
      · exact b64Chr_ne_pipe _ h1 h'.symm
      · exact b64Chr_ne_pipe _ h2 h'.symm
      · exact b64Chr_ne_pipe _ h3 h'.symm
      · exact b64Chr_ne_pipe _ h4 h'.symm
      · exact b64Encode_no_pipe rest hrest h'

/-- Parsing the display form through the shared three-segment parse
recovers the fields. -/
theorem parseTagIvCtMac_display (d : Char) (t : Nat) (iv mac ct : List Nat)
    (hd : d ≠ '.') (hl : utf8Len d = 1) (hu : parseUsize [d] = .ok t)
    (hiv : iv.length = 16) (hmac : mac.length = 32)
    (hbi : AllBytes iv) (hbm : AllBytes mac) (hbc : AllBytes ct) :
    parseTagIvCtMac t
      (d :: '.' :: (b64Encode iv ++ '|' :: (b64Encode ct ++ '|' :: b64Encode mac))) =
      .ok (iv, mac, ct) := by
  have hptt : parseTypeTag
      (d :: '.' :: (b64Encode iv ++ '|' :: (b64Encode ct ++ '|' :: b64Encode mac))) =
      .ok (t, b64Encode iv ++ '|' :: (b64Encode ct ++ '|' :: b64Encode mac)) := by
    rw [parseTypeTag_cons d _ hd hl, hu]
  have hs1 : splitPipe (b64Encode iv ++ '|' :: (b64Encode ct ++ '|' :: b64Encode mac)) =
      b64Encode iv :: splitPipe (b64Encode ct ++ '|' :: b64Encode mac) :=
    splitPipe_append _ _ (b64Encode_no_pipe iv hbi)
  have hs2 : splitPipe (b64Encode ct ++ '|' :: b64Encode mac) =
      b64Encode ct :: splitPipe (b64Encode mac) :=
    splitPipe_append _ _ (b64Encode_no_pipe ct hbc)
  have hs3 : splitPipe (b64Encode mac) = [b64Encode mac] :=
    splitPipe_no_pipe _ (b64Encode_no_pipe mac hbm)
  simp [parseTagIvCtMac, hptt, hs1, hs2, hs3, b64_roundtrip iv hbi,
    b64_roundtrip ct hbc, b64_roundtrip mac hbm, hiv, hmac]

/-- Parsing the display form through the shared single-segment RSA parse
recovers the ciphertext. -/
theorem parseTagCt_display (d : Char) (t : Nat) (ct : List Nat)
    (hd : d ≠ '.') (hl : utf8Len d = 1) (hu : parseUsize [d] = .ok t)
    (hbc : AllBytes ct) :
    parseTagCt t (d :: '.' :: b64Encode ct) = .ok ct := by
  have hptt : parseTypeTag (d :: '.' :: b64Encode ct) = .ok (t, b64Encode ct) := by
    rw [parseTypeTag_cons d _ hd hl, hu]
  have hs : splitPipe (b64Encode ct) = [b64Encode ct] :=
    splitPipe_no_pipe _ (b64Encode_no_pipe ct hbc)
  simp [parseTagCt, hptt, hs, b64_roundtrip ct hbc]

/-- Parsing the display form of a type-0 value recovers the fields. -/
theorem aesCbc256_parse_display (iv ct : List Nat) (hiv : iv.length = 16)
    (hbi : AllBytes iv) (hbc : AllBytes ct) :
    AesCbc256.parse ('0' :: '.' :: (b64Encode iv ++ '|' :: b64Encode ct)) =
      .ok ⟨iv, ct⟩ := by
  have hptt : parseTypeTag ('0' :: '.' :: (b64Encode iv ++ '|' :: b64Encode ct)) =
      .ok (0, b64Encode iv ++ '|' :: b64Encode ct) := by
    rw [parseTypeTag_cons '0' _ (by decide) (by decide)]
    rfl
  have hs1 : splitPipe (b64Encode iv ++ '|' :: b64Encode ct) =
      b64Encode iv :: splitPipe (b64Encode ct) :=
    splitPipe_append _ _ (b64Encode_no_pipe iv hbi)
  have hs2 : splitPipe (b64Encode ct) = [b64Encode ct] :=
    splitPipe_no_pipe _ (b64Encode_no_pipe ct hbc)
  simp [AesCbc256.parse, hptt, hs1, hs2, b64_roundtrip iv hbi,
    b64_roundtrip ct hbc, hiv]

/-- Parsing the display form of a `CipherString` recovers the fields. -/
theorem cipherString_parse_display (iv mac ct : List Nat)
    (hiv : iv.length = 16) (hmac : mac.length = 32)
    (hbi : AllBytes iv) (hbm : AllBytes mac) (hbc : AllBytes ct) :
    CipherString.parse
      ('2' :: '.' :: (b64Encode iv ++ '|' :: (b64Encode ct ++ '|' :: b64Encode mac))) =
      .ok ⟨iv, mac, ct⟩ := by
  have hptt : parseTypeTag
      ('2' :: '.' :: (b64Encode iv ++ '|' :: (b64Encode ct ++ '|' :: b64Encode mac))) =
      .ok (2, b64Encode iv ++ '|' :: (b64Encode ct ++ '|' :: b64Encode mac)) := by
    rw [parseTypeTag_cons '2' _ (by decide) (by decide)]
    rfl
  have hs1 : splitPipe (b64Encode iv ++ '|' :: (b64Encode ct ++ '|' :: b64Encode mac)) =
      b64Encode iv :: splitPipe (b64Encode ct ++ '|' :: b64Encode mac) :=
    splitPipe_append _ _ (b64Encode_no_pipe iv hbi)
  have hs2 : splitPipe (b64Encode ct ++ '|' :: b64Encode mac) =
      b64Encode ct :: splitPipe (b64Encode mac) :=
    splitPipe_append _ _ (b64Encode_no_pipe ct hbc)
  have hs3 : splitPipe (b64Encode mac) = [b64Encode mac] :=
    splitPipe_no_pipe _ (b64Encode_no_pipe mac hbm)
  simp [CipherString.parse, hptt, hs1, hs2, hs3, b64_roundtrip iv hbi,
    b64_roundtrip ct hbc, b64_roundtrip mac hbm, hiv, hmac]

/-- Claim C8: for every well-formed encrypted value of any supported
variant — symmetric tags 0, 1, 2 and asymmetric tags 3, 4, as well as a
`CipherString` — parsing the `Display` rendering yields the value
again. -/
theorem c8_parse_display_roundtrip :
    (∀ v : SymmetricEncryption, v.Wf →
      SymmetricEncryption.parse v.display = .ok v) ∧
    (∀ w : AsymmetricEncryption, w.Wf →
      AsymmetricEncryption.parse w.display = .ok w) ∧
    (∀ c : CipherString, c.Wf → CipherString.parse c.display = .ok c) := by
  refine ⟨fun v hwf => ?_, fun w hwf => ?_, fun c hwf => ?_⟩
  · cases v with
    | aesCbc256 u =>
        obtain ⟨hiv, hbi, hbc⟩ := hwf
        have hptt : parseTypeTag
            ('0' :: '.' :: (b64Encode u.iv ++ '|' :: b64Encode u.ciphertext)) =
            .ok (0, b64Encode u.iv ++ '|' :: b64Encode u.ciphertext) := by
          rw [parseTypeTag_cons '0' _ (by decide) (by decide)]
          rfl
        simp [SymmetricEncryption.parse, SymmetricEncryption.display,
          AesCbc256.display, hptt, aesCbc256_parse_display u.iv u.ciphertext hiv hbi hbc,
          PResult.map, PResult.mapErr]
    | aesCbc128HmacSha256 u =>
        obtain ⟨hiv, hmac, hbi, hbm, hbc⟩ := hwf
        have hptt : parseTypeTag ('1' :: '.' :: (b64Encode u.iv ++
            '|' :: (b64Encode u.ciphertext ++ '|' :: b64Encode u.mac))) =
            .ok (1, b64Encode u.iv ++
              '|' :: (b64Encode u.ciphertext ++ '|' :: b64Encode u.mac)) := by
          rw [parseTypeTag_cons '1' _ (by decide) (by decide)]
          rfl
        simp [SymmetricEncryption.parse, SymmetricEncryption.display,
          AesCbc128HmacSha256.display, hptt, AesCbc128HmacSha256.parse,
          parseTagIvCtMac_display '1' 1 u.iv u.mac u.ciphertext (by decide)
            (by decide) rfl hiv hmac hbi hbm hbc,
          PResult.map, PResult.mapErr]
    | aesCbc256HmacSha256 u =>
        obtain ⟨hiv, hmac, hbi, hbm, hbc⟩ := hwf
        have hptt : parseTypeTag ('2' :: '.' :: (b64Encode u.iv ++
            '|' :: (b64Encode u.ciphertext ++ '|' :: b64Encode u.mac))) =
            .ok (2, b64Encode u.iv ++
              '|' :: (b64Encode u.ciphertext ++ '|' :: b64Encode u.mac)) := by
          rw [parseTypeTag_cons '2' _ (by decide) (by decide)]
          rfl
        simp [SymmetricEncryption.parse, SymmetricEncryption.display,
          AesCbc256HmacSha256.display, hptt, AesCbc256HmacSha256.parse,
          parseTagIvCtMac_display '2' 2 u.iv u.mac u.ciphertext (by decide)
            (by decide) rfl hiv hmac hbi hbm hbc,
          PResult.map, PResult.mapErr]
  · cases w with
    | rsa2048OaepSha1 u =>
        have hptt : parseTypeTag ('4' :: '.' :: b64Encode u.ciphertext) =
            .ok (4, b64Encode u.ciphertext) := by
          rw [parseTypeTag_cons '4' _ (by decide) (by decide)]
          rfl
        simp [AsymmetricEncryption.parse, AsymmetricEncryption.display,
          Rsa2048OaepSha1.display, hptt, Rsa2048OaepSha1.parse,
          parseTagCt_display '4' 4 u.ciphertext (by decide) (by decide) rfl hwf,
          PResult.map, PResult.mapErr]
    | rsa2048OaepSha256 u =>
        have hptt : parseTypeTag ('3' :: '.' :: b64Encode u.ciphertext) =
            .ok (3, b64Encode u.ciphertext) := by
          rw [parseTypeTag_cons '3' _ (by decide) (by decide)]
          rfl
        simp [AsymmetricEncryption.parse, AsymmetricEncryption.display,
          Rsa2048OaepSha256.display, hptt, Rsa2048OaepSha256.parse,
          parseTagCt_display '3' 3 u.ciphertext (by decide) (by decide) rfl hwf,
          PResult.map, PResult.mapErr]
  · obtain ⟨hiv, hmac, hbi, hbm, hbc⟩ := hwf
    have := cipherString_parse_display c.iv c.mac c.ciphertext hiv hmac hbi hbm hbc
    simpa [CipherString.display] using this

/-- Witness for C8: concrete round-trips for the type-2, type-4 and
`CipherString` renderings. -/
theorem c8_parse_display_roundtrip_witness :
    SymmetricEncryption.parse
        (SymmetricEncryption.display (.aesCbc256HmacSha256 wVal)) =
      .ok (.aesCbc256HmacSha256 wVal) ∧
    AsymmetricEncryption.parse
        (AsymmetricEncryption.display (.rsa2048OaepSha1 ⟨[9, 200]⟩)) =
      .ok (.rsa2048OaepSha1 ⟨[9, 200]⟩) ∧
    CipherString.parse wCs.display = .ok wCs :=
  ⟨c8_parse_display_roundtrip.1 (.aesCbc256HmacSha256 wVal)
      (by unfold SymmetricEncryption.Wf AesCbc256HmacSha256.Wf; decide),
   c8_parse_display_roundtrip.2.1 (.rsa2048OaepSha1 ⟨[9, 200]⟩)
      (by unfold AsymmetricEncryption.Wf; decide),
   c8_parse_display_roundtrip.2.2 wCs
      (by unfold CipherString.Wf; decide)⟩

end Rwarden
